import Mathlib

/-!
Shallow embedding of the account-pool rate-limit tracker and selector
(`src/account-manager/rate-limits.js`, `src/account-manager/selection.js`,
`src/account-manager/index.js`) of the antigravity-claude-proxy repository.

Modelling conventions, fixed once for the whole file:
* `Date.now()` is a single instant `now : Int` threaded through each call.
* JS `null`/`undefined` numeric fields are `Option Int`; in a `>`/`<=`
  comparison JS coerces `null` to `0`, modelled by `Option.getD 0`.
* A JS object used as a map `modelId -> state` is an association list
  `List (String × _)` with unique-key lookup (`find?` on the key); an
  absent (`undefined`) map behaves exactly like the empty map because every
  access in the source is guarded, so the two are collapsed to `[]`.
* A string argument defaulting to `null` is `Option String`; JS truthiness
  of such a value (`if (modelId)`) is false for both `null` and `""`.
* Account records are mutated in place in JS; functions here return the
  updated list alongside the original return value.
* The `onSave` callback is fire-and-forget persistence with no effect on
  the account state, so it is dropped.
* Constants imported from `constants.js` (a file outside the modelled
  sources: `DEFAULT_COOLDOWN_MS`, `SOFT_LIMIT_THRESHOLD`,
  `MAX_WAIT_BEFORE_ERROR_MS`) are explicit parameters.
* Quota fractions (JS numbers in [0,1]) are `ℚ`.
-/

/-- Hard rate-limit entry: `{isRateLimited, resetTime}`
(`rate-limits.js`, stored by `markRateLimited`). -/
structure RateLimitState where
  isRateLimited : Bool
  resetTime : Option Int
deriving Repr, DecidableEq

/-- Soft-limit entry: `{isSoftLimited, remainingFraction, resetTime, markedAt}`
(`rate-limits.js`, stored by `markSoftLimited`). -/
structure SoftLimitState where
  isSoftLimited : Bool
  remainingFraction : Option ℚ
  resetTime : Option Int
  markedAt : Int
deriving Repr, DecidableEq

/-- Account record as used by the manager.  `credentials` stands for the raw
credential material stored on the JS account object (refresh token etc.),
which none of the modelled pure functions may reveal. -/
structure Account where
  email : String
  source : Option String := none
  isInvalid : Bool := false
  invalidReason : Option String := none
  invalidAt : Option Int := none
  modelRateLimits : List (String × RateLimitState) := []
  modelSoftLimits : List (String × SoftLimitState) := []
  lastUsed : Option Int := none
  credentials : String := ""
deriving Repr, DecidableEq

/-- JS truthiness of a nullable string (`if (modelId)`): false for `null`
and for the empty string. -/
def strTruthy : Option String → Bool
  | none => false
  | some s => !(s == "")

/-- JS truthiness of a nullable number (`if (limit.resetTime)`): false for
`null` and for `0`. -/
def numTruthy : Option Int → Bool
  | none => false
  | some t => !(t == 0)

/-- JS comparison `x > y` where `x` may be `null` (coerced to `0`). -/
def jsGt (x : Option Int) (y : Int) : Bool :=
  decide (x.getD 0 > y)

/-- JS comparison `x <= y` where `x` may be `null` (coerced to `0`). -/
def jsLe (x : Option Int) (y : Int) : Bool :=
  decide (x.getD 0 ≤ y)

/-- JS `a || b` on nullable numbers: `b` when `a` is `null` or `0`. -/
def jsOrNum (a : Option Int) (b : Int) : Int :=
  match a with
  | none => b
  | some v => if v == 0 then b else v

/-- Lookup `m[k]` in an object modelled as an association list. -/
def lookupEntry (m : List (String × α)) (k : String) : Option α :=
  (m.find? (fun e => e.1 == k)).map (fun e => e.2)

/-- JS assignment `m[k] = v`: overwrite the existing key or append a new one. -/
def setEntry (m : List (String × α)) (k : String) (v : α) : List (String × α) :=
  if (m.find? (fun e => e.1 == k)).isSome then
    m.map (fun e => if e.1 == k then (k, v) else e)
  else
    m ++ [(k, v)]

/-- JS `delete m[k]`. -/
def removeEntry (m : List (String × α)) (k : String) : List (String × α) :=
  m.filter (fun e => !(e.1 == k))

/-- JS object key coercion: a `null` key indexes the property `"null"`. -/
def optKeyStr : Option String → String
  | none => "null"
  | some s => s

/-- `modelId`-scoped hard-limit lookup `acc.modelRateLimits[modelId]` used
after a truthiness check on `modelId`. -/
def rateLimitFor (acc : Account) (modelId : Option String) : Option RateLimitState :=
  lookupEntry acc.modelRateLimits (optKeyStr modelId)

/-- `acc.modelSoftLimits[modelId]`. -/
def softLimitFor (acc : Account) (modelId : Option String) : Option SoftLimitState :=
  lookupEntry acc.modelSoftLimits (optKeyStr modelId)

/-- The hard-limit test `limit.isRateLimited && limit.resetTime > Date.now()`
on an optional entry, as in `isAllRateLimited` / `getAvailableAccounts`. -/
def activeLimit (now : Int) (l : Option RateLimitState) : Bool :=
  match l with
  | none => false
  | some limit => limit.isRateLimited && jsGt limit.resetTime now

/-- `isAllRateLimited(accounts, modelId)` (`rate-limits.js` lines 20-30). -/
def isAllRateLimited (now : Int) (accounts : List Account) (modelId : Option String) : Bool :=
  if accounts.length == 0 then true
  else if !(strTruthy modelId) then false
  else accounts.all fun acc =>
    if acc.isInvalid then true
    else activeLimit now (rateLimitFor acc modelId)

/-- Filter predicate of `getAvailableAccounts` (`rate-limits.js` lines 40-51). -/
def availablePred (now : Int) (modelId : Option String) (acc : Account) : Bool :=
  if acc.isInvalid then false
  else if strTruthy modelId && (rateLimitFor acc modelId).isSome then
    !(activeLimit now (rateLimitFor acc modelId))
  else true

/-- `getAvailableAccounts(accounts, modelId)` (`rate-limits.js` lines 39-52). -/
def getAvailableAccounts (now : Int) (accounts : List Account) (modelId : Option String) :
    List Account :=
  accounts.filter (availablePred now modelId)

/-- `getInvalidAccounts(accounts)` (`rate-limits.js` lines 60-62). -/
def getInvalidAccounts (accounts : List Account) : List Account :=
  accounts.filter (fun acc => acc.isInvalid)

/-- Per-entry action of `clearExpiredLimits`: an entry with
`isRateLimited && resetTime <= now` becomes `{false, null}`. -/
def clearExpiredLimitEntry (now : Int) (e : String × RateLimitState) :
    String × RateLimitState :=
  if e.2.isRateLimited && jsLe e.2.resetTime now then (e.1, ⟨false, none⟩) else e

/-- `clearExpiredLimits` restricted to one account (`rate-limits.js` lines 70-88,
the state change only; the cleared count is not modelled). -/
def clearExpiredLimitsAcc (now : Int) (acc : Account) : Account :=
  { acc with modelRateLimits := acc.modelRateLimits.map (clearExpiredLimitEntry now) }

/-- `clearExpiredLimits(accounts)` state change. -/
def clearExpiredLimits (now : Int) (accounts : List Account) : List Account :=
  accounts.map (clearExpiredLimitsAcc now)

/-- Deletion test of `clearExpiredSoftLimits`:
`limit.isSoftLimited && limit.resetTime && limit.resetTime <= now`. -/
def softLimitExpired (now : Int) (l : SoftLimitState) : Bool :=
  l.isSoftLimited && numTruthy l.resetTime && jsLe l.resetTime now

/-- `clearExpiredSoftLimits` restricted to one account
(`rate-limits.js` lines 344-361, state change only). -/
def clearExpiredSoftLimitsAcc (now : Int) (acc : Account) : Account :=
  { acc with modelSoftLimits :=
      acc.modelSoftLimits.filter (fun e => !(softLimitExpired now e.2)) }

/-- `clearExpiredSoftLimits(accounts)` state change. -/
def clearExpiredSoftLimits (now : Int) (accounts : List Account) : List Account :=
  accounts.map (clearExpiredSoftLimitsAcc now)

/-- Both defensive sweeps run at the head of every selector entry point. -/
def sweep (now : Int) (accounts : List Account) : List Account :=
  clearExpiredSoftLimits now (clearExpiredLimits now accounts)

/-- Settings record (`settings.cooldownDurationMs`). -/
structure Settings where
  cooldownDurationMs : Option Int := none
deriving Repr, DecidableEq

/-- Mutate the first account whose email matches (JS `accounts.find` followed
by in-place mutation touches only the first match). -/
def updateFirst (email : String) (f : Account → Account) :
    List Account → List Account
  | [] => []
  | a :: rest =>
    if a.email == email then f a :: rest else a :: updateFirst email f rest

/-- `markRateLimited(accounts, email, resetMs, settings, modelId)`
(`rate-limits.js` lines 116-137).  `defaultCooldownMs` is the imported
`DEFAULT_COOLDOWN_MS` constant.  The cooldown uses JS `||`, so a zero
`resetMs` (or zero `cooldownDurationMs`) falls through to the next default. -/
def markRateLimited (now : Int) (defaultCooldownMs : Int) (accounts : List Account)
    (email : String) (resetMs : Option Int) (settings : Settings)
    (modelId : String) : Bool × List Account :=
  match accounts.find? (fun a => a.email == email) with
  | none => (false, accounts)
  | some _ =>
    let cooldownMs := jsOrNum resetMs (jsOrNum settings.cooldownDurationMs defaultCooldownMs)
    let resetTime := now + cooldownMs
    (true, updateFirst email (fun a =>
      { a with modelRateLimits := setEntry a.modelRateLimits modelId ⟨true, some resetTime⟩ })
      accounts)

/-- `isSoftLimited(account, modelId, threshold)` (`rate-limits.js` lines
211-224).  The `threshold` parameter is declared in the source but never read
in the body. -/
def isSoftLimited (now : Int) (account : Account) (modelId : Option String)
    (threshold : ℚ) : Bool :=
  if !(strTruthy modelId) then false
  else
    match softLimitFor account modelId with
    | none => false
    | some limit =>
      if !limit.isSoftLimited then false
      else if numTruthy limit.resetTime && jsLe limit.resetTime now then false
      else true

/-- Filter predicate of `getPreferredAccounts` (`rate-limits.js` lines 236-253). -/
def preferredPred (now : Int) (modelId : Option String) (threshold : ℚ)
    (acc : Account) : Bool :=
  if acc.isInvalid then false
  else if strTruthy modelId && (rateLimitFor acc modelId).isSome
      && activeLimit now (rateLimitFor acc modelId) then false
  else if strTruthy modelId && isSoftLimited now acc modelId threshold then false
  else true

/-- `getPreferredAccounts(accounts, modelId, threshold)`
(`rate-limits.js` lines 235-254). -/
def getPreferredAccounts (now : Int) (accounts : List Account)
    (modelId : Option String) (threshold : ℚ) : List Account :=
  accounts.filter (preferredPred now modelId threshold)

/-- `isAllSoftLimited(accounts, modelId, threshold)`
(`rate-limits.js` lines 265-275). -/
def isAllSoftLimited (now : Int) (accounts : List Account) (modelId : Option String)
    (threshold : ℚ) : Bool :=
  if accounts.length == 0 then true
  else if !(strTruthy modelId) then false
  else
    let available := getAvailableAccounts now accounts modelId
    if available.length == 0 then false
    else available.all (fun acc => isSoftLimited now acc modelId threshold)

/-- `markSoftLimited(accounts, email, modelId, remainingFraction, resetTime,
threshold)` (`rate-limits.js` lines 289-317).  `resetTimeMs` is the parsed
value of the optional ISO `resetTime` string (`new Date(resetTime).getTime()`
when the string is truthy, else `null`). -/
def markSoftLimited (now : Int) (accounts : List Account) (email : String)
    (modelId : Option String) (remainingFraction : Option ℚ)
    (resetTimeMs : Option Int) : Bool × List Account :=
  match accounts.find? (fun a => a.email == email) with
  | none => (false, accounts)
  | some _ =>
    (true, updateFirst email (fun a =>
      let entry := SoftLimitState.mk true remainingFraction resetTimeMs now
      { a with modelSoftLimits := setEntry a.modelSoftLimits (optKeyStr modelId) entry })
      accounts)

/-- `clearSoftLimit(accounts, email, modelId)` (`rate-limits.js` lines 327-336). -/
def clearSoftLimit (accounts : List Account) (email : String)
    (modelId : Option String) : Bool × List Account :=
  match accounts.find? (fun a => a.email == email) with
  | none => (false, accounts)
  | some account =>
    if (softLimitFor account modelId).isSome then
      (true, updateFirst email (fun a =>
        { a with modelSoftLimits := removeEntry a.modelSoftLimits (optKeyStr modelId) })
        accounts)
    else (false, accounts)

/-- `updateSoftLimitStatus(accounts, email, modelId, remainingFraction,
resetTime, threshold)` (`rate-limits.js` lines 375-391).  Returns
`((changed, isSoftLimited), accounts)`. -/
def updateSoftLimitStatus (now : Int) (accounts : List Account) (email : String)
    (modelId : Option String) (remainingFraction : Option ℚ)
    (resetTimeMs : Option Int) (threshold : ℚ) : (Bool × Bool) × List Account :=
  match accounts.find? (fun a => a.email == email) with
  | none => ((false, false), accounts)
  | some account =>
    let wasSoftLimited := isSoftLimited now account modelId threshold
    let shouldBeSoftLimited :=
      match remainingFraction with
      | none => false
      | some f => decide (f < threshold) && decide (f ≥ 0)
    if shouldBeSoftLimited && !wasSoftLimited then
      ((true, true),
        (markSoftLimited now accounts email modelId remainingFraction resetTimeMs).2)
    else if !shouldBeSoftLimited && wasSoftLimited then
      ((true, false), (clearSoftLimit accounts email modelId).2)
    else ((false, wasSoftLimited), accounts)

/-- `isAccountUsable(account, modelId)` (`selection.js` lines 26-37): not
invalid and not hard-limited-and-unexpired for a truthy `modelId`.  The JS
`!account` null guard is unrepresentable for a typed `Account` and appears
only through `Option.elim` at call sites indexing out of range. -/
def isAccountUsable (now : Int) (account : Account) (modelId : Option String) : Bool :=
  if account.isInvalid then false
  else if strTruthy modelId && (rateLimitFor account modelId).isSome then
    !(activeLimit now (rateLimitFor account modelId))
  else true

/-- `isAccountPreferred(account, modelId)` (`selection.js` lines 46-52).
`threshold` is the `SOFT_LIMIT_THRESHOLD` default that the inner
`isSoftLimited` call receives. -/
def isAccountPreferred (now : Int) (account : Account) (modelId : Option String)
    (threshold : ℚ) : Bool :=
  if !(isAccountUsable now account modelId) then false
  else if !(strTruthy modelId) then true
  else !(isSoftLimited now account modelId threshold)

/-- Cursor clamping `if (index >= accounts.length) index = 0` shared by the
selectors. -/
def clampIndex (accounts : List Account) (currentIndex : Nat) : Nat :=
  if currentIndex ≥ accounts.length then 0 else currentIndex

/-- Offsets `[s, s+1, ..., s+n-1]` visited by the scan loop
`for (let i = s; i <= ...; i++)`. -/
def offsetsFrom (s : Nat) : Nat → List Nat
  | 0 => []
  | n + 1 => s :: offsetsFrom (s + 1) n

/-- One wrap-around scan step sequence: for each offset `i`, test the account
at `(index + i) % accounts.length` and return the first index that satisfies
`p` (the loop body of `pickNext`). -/
def scanLoop (accounts : List Account) (index : Nat) (p : Account → Bool) :
    List Nat → Option Nat
  | [] => none
  | i :: rest =>
    let idx := (index + i) % accounts.length
    match accounts[idx]? with
    | some a => if p a then some idx else scanLoop accounts index p rest
    | none => scanLoop accounts index p rest

/-- The full forward scan `for (let i = 1; i <= accounts.length; i++)`. -/
def scanFrom (accounts : List Account) (index : Nat) (p : Account → Bool) : Option Nat :=
  scanLoop accounts index p (offsetsFrom 1 accounts.length)

/-- `account.lastUsed = Date.now()` applied to the account at position `idx`. -/
def stampAt (now : Int) (accounts : List Account) (idx : Nat) : List Account :=
  accounts.mapIdx (fun i a => if i == idx then { a with lastUsed := some now } else a)

/-- Return value `{account, newIndex}` of `pickNext` /
`getCurrentStickyAccount`. -/
structure PickResult where
  account : Option Account
  newIndex : Nat
deriving Repr, DecidableEq

/-- `pickNext(accounts, currentIndex, onSave, modelId, softLimitEnabled)`
(`selection.js` lines 65-130), returning the `{account, newIndex}` result
together with the mutated account list.  `threshold` is the
`SOFT_LIMIT_THRESHOLD` constant reaching the preference checks. -/
def pickNext (now : Int) (threshold : ℚ) (accounts0 : List Account)
    (currentIndex : Nat) (modelId : Option String) (softLimitEnabled : Bool) :
    PickResult × List Account :=
  let accounts := sweep now accounts0
  let available := getAvailableAccounts now accounts modelId
  if available.length == 0 then
    (⟨none, currentIndex⟩, accounts)
  else
    let index := clampIndex accounts currentIndex
    let preferredHit : Option Nat :=
      if softLimitEnabled && strTruthy modelId then
        if (getPreferredAccounts now accounts modelId threshold).length > 0 then
          scanFrom accounts index
            (fun a => isAccountPreferred now a modelId threshold)
        else none
      else none
    match preferredHit with
    | some idx =>
      (⟨(accounts[idx]?).map (fun a => { a with lastUsed := some now }), idx⟩,
        stampAt now accounts idx)
    | none =>
      match scanFrom accounts index (fun a => isAccountUsable now a modelId) with
      | some idx =>
        (⟨(accounts[idx]?).map (fun a => { a with lastUsed := some now }), idx⟩,
          stampAt now accounts idx)
      | none => (⟨none, currentIndex⟩, accounts)

/-- Return value of `getCurrentStickyAccount`, with the reported soft-limit
flag. -/
structure StickyResult where
  account : Option Account
  newIndex : Nat
  isSoftLimited : Bool
deriving Repr, DecidableEq

/-- `getCurrentStickyAccount(accounts, currentIndex, onSave, modelId)`
(`selection.js` lines 143-169).  An out-of-range clamped index yields the JS
`accounts[index] === undefined`, which fails the `!account` usable guard. -/
def getCurrentStickyAccount (now : Int) (threshold : ℚ) (accounts0 : List Account)
    (currentIndex : Nat) (modelId : Option String) : StickyResult × List Account :=
  let accounts := sweep now accounts0
  if accounts.length == 0 then
    (⟨none, currentIndex, false⟩, accounts)
  else
    let index := clampIndex accounts currentIndex
    match accounts[index]? with
    | none => (⟨none, index, false⟩, accounts)
    | some account =>
      if isAccountUsable now account modelId then
        let softLimited :=
          if strTruthy modelId then isSoftLimited now account modelId threshold
          else false
        (⟨some { account with lastUsed := some now }, index, softLimited⟩,
          stampAt now accounts index)
      else (⟨none, index, false⟩, accounts)

/-- Return value `{shouldWait, waitMs, account}` of
`shouldWaitForCurrentAccount`. -/
structure WaitInfo where
  shouldWait : Bool
  waitMs : Int
  account : Option Account
deriving Repr, DecidableEq

/-- `shouldWaitForCurrentAccount(accounts, currentIndex, modelId)`
(`selection.js` lines 179-213).  `maxWaitBeforeErrorMs` is the imported
`MAX_WAIT_BEFORE_ERROR_MS` constant. -/
def shouldWaitForCurrentAccount (maxWaitBeforeErrorMs now : Int)
    (accounts : List Account) (currentIndex : Nat) (modelId : Option String) :
    WaitInfo :=
  if accounts.length == 0 then ⟨false, 0, none⟩
  else
    let index := clampIndex accounts currentIndex
    match accounts[index]? with
    | none => ⟨false, 0, none⟩
    | some account =>
      if account.isInvalid then ⟨false, 0, none⟩
      else
        let waitMs : Int :=
          if strTruthy modelId && (rateLimitFor account modelId).isSome then
            match rateLimitFor account modelId with
            | some limit =>
              if limit.isRateLimited && numTruthy limit.resetTime then
                limit.resetTime.getD 0 - now
              else 0
            | none => 0
          else 0
        if decide (waitMs > 0) && decide (waitMs ≤ maxWaitBeforeErrorMs) then
          ⟨true, waitMs, some account⟩
        else ⟨false, 0, some account⟩

/-- Return value `{account, waitMs, newIndex}` of `pickStickyAccount`. -/
structure StickyPick where
  account : Option Account
  waitMs : Int
  newIndex : Nat
deriving Repr, DecidableEq

/-- Tail of `pickStickyAccount` (`selection.js` lines 263-275): the wait
decision for the sticky account, then the terminal round-robin attempt. -/
def pickStickyTail (now : Int) (threshold : ℚ) (maxWaitBeforeErrorMs : Int)
    (accounts : List Account) (currentIndex : Nat) (modelId : Option String)
    (softLimitEnabled : Bool) : StickyPick × List Account :=
  let waitInfo := shouldWaitForCurrentAccount maxWaitBeforeErrorMs now accounts
    currentIndex modelId
  if waitInfo.shouldWait then
    (⟨none, waitInfo.waitMs, currentIndex⟩, accounts)
  else
    let r := pickNext now threshold accounts currentIndex modelId softLimitEnabled
    (⟨r.1.account, 0, r.1.newIndex⟩, r.2)

/-- `pickStickyAccount(accounts, currentIndex, onSave, modelId,
softLimitEnabled)` (`selection.js` lines 227-276). -/
def pickStickyAccount (now : Int) (threshold : ℚ) (maxWaitBeforeErrorMs : Int)
    (accounts0 : List Account) (currentIndex : Nat) (modelId : Option String)
    (softLimitEnabled : Bool) : StickyPick × List Account :=
  let s := getCurrentStickyAccount now threshold accounts0 currentIndex modelId
  let accounts1 := s.2
  match s.1.account with
  | some stickyAccount =>
    if softLimitEnabled && s.1.isSoftLimited && strTruthy modelId then
      if (getPreferredAccounts now accounts1 modelId threshold).length > 0 then
        let r := pickNext now threshold accounts1 currentIndex modelId true
        match r.1.account with
        | some nextAccount =>
          if !(nextAccount.email == stickyAccount.email) then
            (⟨some nextAccount, 0, r.1.newIndex⟩, r.2)
          else (⟨some stickyAccount, 0, s.1.newIndex⟩, r.2)
        | none => (⟨some stickyAccount, 0, s.1.newIndex⟩, r.2)
      else (⟨some stickyAccount, 0, s.1.newIndex⟩, accounts1)
    else (⟨some stickyAccount, 0, s.1.newIndex⟩, accounts1)
  | none =>
    let available := getAvailableAccounts now accounts1 modelId
    if available.length > 0 then
      let r := pickNext now threshold accounts1 currentIndex modelId softLimitEnabled
      match r.1.account with
      | some nextAccount => (⟨some nextAccount, 0, r.1.newIndex⟩, r.2)
      | none =>
        pickStickyTail now threshold maxWaitBeforeErrorMs r.2 currentIndex modelId
          softLimitEnabled
    else
      pickStickyTail now threshold maxWaitBeforeErrorMs accounts1 currentIndex modelId
        softLimitEnabled

/-! ### Generic facts about the embedded primitives -/

lemma sweepAcc_def (now : Int) (acc : Account) :
    clearExpiredSoftLimitsAcc now (clearExpiredLimitsAcc now acc) =
      { acc with
          modelRateLimits := acc.modelRateLimits.map (clearExpiredLimitEntry now),
          modelSoftLimits :=
            acc.modelSoftLimits.filter (fun e => !(softLimitExpired now e.2)) } := rfl

lemma sweep_length (now : Int) (accounts : List Account) :
    (sweep now accounts).length = accounts.length := by
  simp [sweep, clearExpiredLimits, clearExpiredSoftLimits]

lemma sweep_getElem? (now : Int) (accounts : List Account) (i : Nat) :
    (sweep now accounts)[i]? =
      (accounts[i]?).map
        (fun a => clearExpiredSoftLimitsAcc now (clearExpiredLimitsAcc now a)) := by
  simp [sweep, clearExpiredLimits, clearExpiredSoftLimits, List.getElem?_map,
    Option.map_map]
  rfl

lemma lookupEntry_map_clear (now : Int) (m : List (String × RateLimitState))
    (k : String) :
    lookupEntry (m.map (clearExpiredLimitEntry now)) k =
      (lookupEntry m k).map
        (fun l => if l.isRateLimited && jsLe l.resetTime now then ⟨false, none⟩ else l) := by
  induction m with
  | nil => rfl
  | cons e m ih =>
    have hkey : (clearExpiredLimitEntry now e).1 = e.1 := by
      unfold clearExpiredLimitEntry; split <;> rfl
    by_cases h : e.1 == k
    · unfold lookupEntry at *
      simp only [List.map_cons, List.find?_cons]
      rw [hkey]
      simp only [h]
      unfold clearExpiredLimitEntry
      split <;> rename_i hcond <;> simp only [Bool.and_eq_true] at hcond <;>
        simp [hcond]
    · unfold lookupEntry at *
      simp only [List.map_cons, List.find?_cons]
      rw [hkey]
      simp only [h]
      simpa using ih

/-! ### Claims C10, C7, C5, C8, C1 -/

/-- C10: `isSoftLimited(account, modelId, threshold)` never consults its
`threshold` argument: for any two thresholds the result is identical, so it
depends only on the stored soft-limit entry, its flag, and whether its
`resetTime` is still in the future.  Reconfiguring the threshold therefore
only affects future marking, never reads of already-marked state. -/
theorem isSoftLimited_threshold_irrelevant (now : Int) (account : Account)
    (modelId : Option String) (t1 t2 : ℚ) :
    isSoftLimited now account modelId t1 = isSoftLimited now account modelId t2 := rfl

/-- C7 counterexample: the claim says `isAllRateLimited` returns `false` for a
missing `modelId` on *every* account sequence including the empty one, but the
source checks `accounts.length === 0` first and returns `true` for the empty
sequence even with a null `modelId`. -/
theorem isAllRateLimited_empty_no_model_counterexample :
    isAllRateLimited 0 [] none = true := by decide

/-- C7 (amended): for every **non-empty** account sequence,
`isAllRateLimited` returns `false` whenever the `modelId` argument is
absent/null (or the empty string, which JS treats the same); the empty
sequence instead returns `true` unconditionally. -/
theorem isAllRateLimited_no_model_false (now : Int) (accounts : List Account)
    (modelId : Option String) (hne : accounts ≠ [])
    (hm : strTruthy modelId = false) :
    isAllRateLimited now accounts modelId = false := by
  unfold isAllRateLimited
  have hlen : (accounts.length == 0) = false := by
    simpa using hne
  simp [hlen, hm]

/-- Witness for `isAllRateLimited_no_model_false`. -/
theorem isAllRateLimited_no_model_false_witness :
    isAllRateLimited 5 [{ email := "a" }] none = false :=
  isAllRateLimited_no_model_false 5 [{ email := "a" }] none (by simp) (by decide)

/-- C5 counterexample: the claim says a null `remainingFraction` is a no-op
with `changed = false` even for an account currently soft-limited for the
model; in the source `shouldBeSoftLimited` becomes `false` for a null
fraction, so a currently soft-limited account takes the clear branch and the
call returns `changed = true` (and removes the entry). -/
theorem updateSoftLimitStatus_null_clears_counterexample :
    (updateSoftLimitStatus 100
        [{ email := "a", modelSoftLimits := [("m", ⟨true, some (1/2), none, 0⟩)] }]
        "a" (some "m") none none (7/10)).1.1 = true := by decide

/-- C5 (amended): with a null `remainingFraction`, `updateSoftLimitStatus`
is a no-op returning `changed = false` whenever the matched account is not
currently soft-limited for the model (including when no account matches);
when the matched account *is* currently soft-limited, the call instead
clears that soft limit and returns `changed = true`. -/
theorem updateSoftLimitStatus_null_fraction_spec (now : Int)
    (accounts : List Account) (email : String) (modelId : Option String)
    (resetTimeMs : Option Int) (threshold : ℚ) :
    updateSoftLimitStatus now accounts email modelId none resetTimeMs threshold =
      match accounts.find? (fun a => a.email == email) with
      | none => ((false, false), accounts)
      | some account =>
        if isSoftLimited now account modelId threshold then
          ((true, false), (clearSoftLimit accounts email modelId).2)
        else ((false, false), accounts) := by
  unfold updateSoftLimitStatus
  cases hfind : accounts.find? (fun a => a.email == email) with
  | none => rfl
  | some account =>
    cases hsl : isSoftLimited now account modelId threshold <;> simp [hsl]

/-- C8 counterexample: the claim says `isAllSoftLimited` returns `false`
whenever the set of hard-available accounts is empty, *including* the empty
account sequence, but the source returns `true` for the empty sequence
(`accounts.length === 0` is checked first). -/
theorem isAllSoftLimited_empty_counterexample :
    isAllSoftLimited 0 [] (some "m") (7/10) = true := by decide

/-- C8 (amended): for every **non-empty** account sequence and any `modelId`,
`isAllSoftLimited` considers only hard-available accounts: it returns `true`
iff the hard-available set is non-empty and every hard-available account is
soft-limited for the model (hence `false` whenever the hard-available set is
empty); the empty account sequence instead returns `true`. -/
theorem isAllSoftLimited_characterization (now : Int) (accounts : List Account)
    (modelId : Option String) (threshold : ℚ) (hne : accounts ≠ []) :
    isAllSoftLimited now accounts modelId threshold = true ↔
      (getAvailableAccounts now accounts modelId ≠ [] ∧
        ∀ a ∈ getAvailableAccounts now accounts modelId,
          isSoftLimited now a modelId threshold = true) := by
  unfold isAllSoftLimited
  have hlen : (accounts.length == 0) = false := by
    simpa using hne
  rw [hlen]
  simp only [Bool.false_eq_true, if_false]
  cases hm : strTruthy modelId with
  | false =>
    rw [if_pos (show ((!false : Bool) = true) from rfl)]
    constructor
    · intro h; simp at h
    · rintro ⟨hav, hall⟩
      rcases List.exists_mem_of_ne_nil _ hav with ⟨a, ha⟩
      have h2 := hall a ha
      simp [isSoftLimited, hm] at h2
  | true =>
    rw [if_neg (show ¬((!true : Bool) = true) by decide)]
    by_cases hav : (getAvailableAccounts now accounts modelId).length = 0
    · have hnil : getAvailableAccounts now accounts modelId = [] :=
        List.length_eq_zero.mp hav
      rw [if_pos (by simpa using hav)]
      constructor
      · intro h; simp at h
      · rintro ⟨hnn, _⟩; exact absurd hnil hnn
    · have hav2 : ((getAvailableAccounts now accounts modelId).length == 0) = false := by
        simpa using hav
      rw [hav2]
      rw [if_neg (show ¬((false : Bool) = true) by decide)]
      rw [List.all_eq_true]
      have hnnil : getAvailableAccounts now accounts modelId ≠ [] := by
        intro hh
        exact hav (by rw [hh]; rfl)
      constructor
      · intro h; exact ⟨hnnil, h⟩
      · intro h; exact h.2

/-- Witness for `isAllSoftLimited_characterization`. -/
theorem isAllSoftLimited_characterization_witness :
    isAllSoftLimited 0
        [{ email := "a", modelSoftLimits := [("m", ⟨true, some (1/2), none, 0⟩)] }]
        (some "m") (7/10) = true ↔
      (getAvailableAccounts 0
          [{ email := "a", modelSoftLimits := [("m", ⟨true, some (1/2), none, 0⟩)] }]
          (some "m") ≠ [] ∧
        ∀ a ∈ getAvailableAccounts 0
            [{ email := "a", modelSoftLimits := [("m", ⟨true, some (1/2), none, 0⟩)] }]
            (some "m"),
          isSoftLimited 0 a (some "m") (7/10) = true) :=
  isAllSoftLimited_characterization 0 _ (some "m") (7/10) (by simp)

/-- C1: for every non-empty account sequence and a given (truthy) model id,
`isAllRateLimited` is `true` iff `getAvailableAccounts` returns the empty
list.  (A model id is a non-empty string; JS treats the empty string like a
missing model.) -/
theorem isAllRateLimited_iff_available_empty (now : Int) (accounts : List Account)
    (m : String) (hne : accounts ≠ []) (hm : m ≠ "") :
    isAllRateLimited now accounts (some m) = true ↔
      getAvailableAccounts now accounts (some m) = [] := by
  have hstr : strTruthy (some m) = true := by simp [strTruthy, hm]
  have hlen : (accounts.length == 0) = false := by
    simpa using hne
  have key : ∀ a : Account,
      availablePred now (some m) a =
        !(if a.isInvalid then true else activeLimit now (rateLimitFor a (some m))) := by
    intro a
    unfold availablePred
    cases hi : a.isInvalid with
    | true => simp
    | false =>
      simp only [Bool.false_eq_true, if_false, hstr, Bool.true_and, Bool.not_false]
      cases hl : rateLimitFor a (some m) with
      | none => simp [activeLimit]
      | some l => simp [activeLimit]
  unfold isAllRateLimited getAvailableAccounts
  rw [hlen, hstr]
  simp only [Bool.false_eq_true, if_false, Bool.not_true]
  rw [List.all_eq_true, List.filter_eq_nil_iff]
  constructor
  · intro h a ha
    rw [key a]
    simp [h a ha]
  · intro h a ha
    have h2 := h a ha
    rw [key a] at h2
    have h3 : a.isInvalid = false → activeLimit now (rateLimitFor a (some m)) = true := by
      simpa using h2
    cases hi : a.isInvalid with
    | true => simp [hi]
    | false => simp [hi, h3 hi]

/-- Witness for `isAllRateLimited_iff_available_empty`. -/
theorem isAllRateLimited_iff_available_empty_witness :
    isAllRateLimited 0 [{ email := "a", isInvalid := true }] (some "m") = true ↔
      getAvailableAccounts 0 [{ email := "a", isInvalid := true }] (some "m") = [] :=
  isAllRateLimited_iff_available_empty 0 _ "m" (by simp) (by decide)

/-! ### Claim C6: markRateLimited -/

lemma find_updateFirst (email : String) (f : Account → Account)
    (hf : ∀ a, (f a).email = a.email) (l : List Account) :
    (updateFirst email f l).find? (fun a => a.email == email) =
      (l.find? (fun a => a.email == email)).map f := by
  induction l with
  | nil => rfl
  | cons a rest ih =>
    by_cases h : a.email == email
    · unfold updateFirst
      rw [if_pos h]
      rw [List.find?_cons_of_pos, List.find?_cons_of_pos]
      · rfl
      · exact h
      · simpa [hf a] using h
    · unfold updateFirst
      rw [if_neg h]
      rw [List.find?_cons_of_neg, List.find?_cons_of_neg]
      · exact ih
      · exact h
      · exact h

lemma find_setEntry_overwrite (k : String) (v : α) (m : List (String × α)) :
    (m.map (fun e => if e.1 == k then (k, v) else e)).find? (fun e => e.1 == k) =
      if (m.find? (fun e => e.1 == k)).isSome then some (k, v) else none := by
  induction m with
  | nil => rfl
  | cons e m ih =>
    by_cases h : e.1 == k
    · simp only [List.map_cons, h, if_true]
      rw [List.find?_cons_of_pos, List.find?_cons_of_pos]
      · simp
      · exact h
      · simp
    · simp only [List.map_cons, h, if_false]
      rw [List.find?_cons_of_neg, List.find?_cons_of_neg]
      · exact ih
      · exact h
      · exact h

lemma find_append_single_none (k : String) (v : α) (m : List (String × α))
    (h : m.find? (fun e => e.1 == k) = none) :
    (m ++ [(k, v)]).find? (fun e => e.1 == k) = some (k, v) := by
  induction m with
  | nil => simp
  | cons e m ih =>
    have he : ¬((fun (e : String × α) => e.1 == k) e = true) := by
      intro hc
      rw [List.find?_cons_of_pos m hc] at h
      exact Option.noConfusion h
    rw [List.cons_append, List.find?_cons_of_neg (m ++ [(k, v)]) he]
    apply ih
    rwa [List.find?_cons_of_neg m he] at h

lemma lookupEntry_setEntry (m : List (String × α)) (k : String) (v : α) :
    lookupEntry (setEntry m k v) k = some v := by
  unfold lookupEntry setEntry
  by_cases h : (m.find? (fun e => e.1 == k)).isSome
  · rw [if_pos h, find_setEntry_overwrite, if_pos h]
    rfl
  · rw [if_neg h, find_append_single_none]
    · rfl
    · cases hf : m.find? (fun e => e.1 == k) with
      | none => rfl
      | some x =>
        exact absurd (show (m.find? (fun e => e.1 == k)).isSome = true by
          rw [hf]; rfl) h

/-- C6 counterexample: the claim says the cooldown `d` equals `resetMs`
whenever `resetMs` is non-null, *including* `resetMs = 0`; but the source
computes `resetMs || settings.cooldownDurationMs || DEFAULT_COOLDOWN_MS` with
JS `||`, so `resetMs = 0` is skipped.  With `now = 10`, `resetMs = 0` and
`cooldownDurationMs = 5000` the stored entry has `resetTime = 5010`, not
`now + 0 = 10`. -/
theorem markRateLimited_zero_resetMs_counterexample :
    (markRateLimited 10 7777 [{ email := "a" }] "a" (some 0) ⟨some 5000⟩ "m").2.map
        (fun a => lookupEntry a.modelRateLimits "m") ≠
      [some ⟨true, some (10 + 0)⟩] := by decide

/-- C6 (amended): when an account with the given email exists,
`markRateLimited` returns `true` and overwrites that account's hard-limit
entry for `modelId` with `{isRateLimited: true, resetTime: now + d}`, where
`d` is `resetMs` when `resetMs` is non-null **and non-zero**, otherwise
`settings.cooldownDurationMs` when present and non-zero, otherwise the
default cooldown constant (JS `||` chain). -/
theorem markRateLimited_sets_cooldown (now dft : Int) (accounts : List Account)
    (email : String) (resetMs : Option Int) (settings : Settings)
    (modelId : String) (acc : Account)
    (hfind : accounts.find? (fun a => a.email == email) = some acc) :
    (markRateLimited now dft accounts email resetMs settings modelId).1 = true ∧
      ((markRateLimited now dft accounts email resetMs settings modelId).2.find?
          (fun a => a.email == email)).map
          (fun a => lookupEntry a.modelRateLimits modelId) =
        some (some ⟨true, some (now + jsOrNum resetMs
          (jsOrNum settings.cooldownDurationMs dft))⟩) := by
  unfold markRateLimited
  rw [hfind]
  refine ⟨rfl, ?_⟩
  rw [find_updateFirst]
  · rw [hfind]
    simp [lookupEntry_setEntry]
  · intro a
    rfl

/-- Witness for `markRateLimited_sets_cooldown`. -/
theorem markRateLimited_sets_cooldown_witness :
    (markRateLimited 10 7777 [{ email := "a" }] "a" (some 0) ⟨some 5000⟩ "m").1 = true ∧
      ((markRateLimited 10 7777 [{ email := "a" }] "a" (some 0) ⟨some 5000⟩ "m").2.find?
          (fun a => a.email == "a")).map
          (fun a => lookupEntry a.modelRateLimits "m") =
        some (some ⟨true, some (10 + jsOrNum (some 0) (jsOrNum (some 5000) 7777))⟩) :=
  markRateLimited_sets_cooldown 10 7777 [{ email := "a" }] "a" (some 0) ⟨some 5000⟩ "m"
    { email := "a" } (by decide)

/-! ### Claim C2: pickNext only returns usable accounts -/

lemma scanLoop_mem (accounts : List Account) (index : Nat) (p : Account → Bool) :
    ∀ offs idx, scanLoop accounts index p offs = some idx →
      ∃ a, accounts[idx]? = some a ∧ p a = true := by
  intro offs
  induction offs with
  | nil => intro idx h; cases h
  | cons i rest ih =>
    intro idx h
    unfold scanLoop at h
    cases ha : accounts[(index + i) % accounts.length]? with
    | some a =>
      simp only [ha] at h
      by_cases hp : p a = true
      · rw [if_pos hp] at h
        cases h
        exact ⟨a, ha, hp⟩
      · rw [if_neg hp] at h
        exact ih idx h
    | none =>
      simp only [ha] at h
      exact ih idx h

lemma scanFrom_mem (accounts : List Account) (index : Nat) (p : Account → Bool)
    (idx : Nat) (h : scanFrom accounts index p = some idx) :
    ∃ a, accounts[idx]? = some a ∧ p a = true :=
  scanLoop_mem accounts index p _ idx h

lemma isAccountUsable_spec (now : Int) (a : Account) (modelId : Option String)
    (h : isAccountUsable now a modelId = true) :
    a.isInvalid = false ∧ ∀ m, modelId = some m → m ≠ "" →
      activeLimit now (rateLimitFor a (some m)) = false := by
  unfold isAccountUsable at h
  cases hi : a.isInvalid with
  | true => rw [if_pos hi] at h; cases h
  | false =>
    refine ⟨rfl, ?_⟩
    intro m hm hm2
    subst hm
    have hstr : strTruthy (some m) = true := by simp [strTruthy, hm2]
    rw [hi] at h
    simp only [Bool.false_eq_true, if_false] at h
    cases hl : rateLimitFor a (some m) with
    | none => simp [activeLimit]
    | some l =>
      rw [hl] at h
      simp only [hstr, Option.isSome_some, Bool.and_true, if_true] at h
      simpa using h

lemma isAccountPreferred_usable (now : Int) (a : Account) (modelId : Option String)
    (threshold : ℚ) (h : isAccountPreferred now a modelId threshold = true) :
    isAccountUsable now a modelId = true := by
  unfold isAccountPreferred at h
  cases hu : isAccountUsable now a modelId with
  | true => rfl
  | false => rw [hu] at h; simp at h

/-- C2: whenever `pickNext` returns a non-null account, that account has
`isInvalid = false` and has no hard-limit entry for the queried model id that
is active (`isRateLimited = true`) with `resetTime` still in the future at
selection time.  (A queried model id is a non-empty string; with a null or
empty-string `modelId` the per-model condition is vacuous, matching the
source's truthiness guard.) -/
theorem pickNext_result_usable (now : Int) (threshold : ℚ)
    (accounts : List Account) (currentIndex : Nat) (modelId : Option String)
    (softLimitEnabled : Bool) (acc : Account)
    (hacc : (pickNext now threshold accounts currentIndex modelId
      softLimitEnabled).1.account = some acc) :
    acc.isInvalid = false ∧
      ∀ m, modelId = some m → m ≠ "" →
        activeLimit now (rateLimitFor acc (some m)) = false := by
  unfold pickNext at hacc
  simp only [] at hacc
  split at hacc
  · cases hacc
  · split at hacc
    · rename_i idx heq
      -- preferred-phase hit
      split at heq
      · split at heq
        · rcases scanFrom_mem _ _ _ _ heq with ⟨a, ha, hp⟩
          rw [ha] at hacc
          have hu := isAccountUsable_spec now a modelId
            (isAccountPreferred_usable now a modelId threshold hp)
          cases hacc
          exact hu
        · cases heq
      · cases heq
    · rename_i hnone
      split at hacc
      · rename_i idx heq
        rcases scanFrom_mem _ _ _ _ heq with ⟨a, ha, hp⟩
        rw [ha] at hacc
        have hu := isAccountUsable_spec now a modelId hp
        cases hacc
        exact hu
      · cases hacc

/-- Witness for `pickNext_result_usable`. -/
theorem pickNext_result_usable_witness :
    ({ email := "b", lastUsed := some 0 } : Account).isInvalid = false ∧
      ∀ m, (some "m" : Option String) = some m → m ≠ "" →
        activeLimit 0 (rateLimitFor { email := "b", lastUsed := some 0 } (some m)) = false :=
  pickNext_result_usable 0 0 [{ email := "b" }] 0 (some "m") true
    { email := "b", lastUsed := some 0 } (by decide)

/-! ### Claim C3: pickNext picks the first match in forward wrap-around order -/

/-- `idx` is the first position in the forward wrap-around scan from
`index + 1` (offsets `1..accounts.length`) whose account satisfies `p`. -/
def firstHitFrom (accounts : List Account) (index : Nat) (p : Account → Bool)
    (idx : Nat) : Prop :=
  ∃ k, 1 ≤ k ∧ k ≤ accounts.length ∧ idx = (index + k) % accounts.length ∧
    (∀ a, accounts[idx]? = some a → p a = true) ∧
    (∀ j, 1 ≤ j → j < k → ∀ a,
      accounts[(index + j) % accounts.length]? = some a → p a = false)

lemma scanLoop_first (accounts : List Account) (index : Nat) (p : Account → Bool) :
    ∀ n s idx, scanLoop accounts index p (offsetsFrom s n) = some idx →
      ∃ k, s ≤ k ∧ k < s + n ∧ idx = (index + k) % accounts.length ∧
        (∀ a, accounts[idx]? = some a → p a = true) ∧
        (∀ j, s ≤ j → j < k → ∀ a,
          accounts[(index + j) % accounts.length]? = some a → p a = false) := by
  intro n
  induction n with
  | zero => intro s idx h; cases h
  | succ n ih =>
    intro s idx h
    unfold offsetsFrom scanLoop at h
    cases ha : accounts[(index + s) % accounts.length]? with
    | some a =>
      simp only [ha] at h
      by_cases hp : p a = true
      · rw [if_pos hp] at h
        cases h
        refine ⟨s, le_refl s, by omega, rfl, ?_, ?_⟩
        · intro b hb
          rw [ha] at hb
          cases hb
          exact hp
        · intro j hj1 hj2 b hb
          exact absurd (Nat.lt_of_le_of_lt hj1 hj2) (lt_irrefl s)
      · rw [if_neg hp] at h
        rcases ih (s + 1) idx h with ⟨k, hk1, hk2, hk3, hk4, hk5⟩
        refine ⟨k, by omega, by omega, hk3, hk4, ?_⟩
        intro j hj1 hj2 b hb
        by_cases hjs : j = s
        · subst hjs
          rw [ha] at hb
          cases hb
          simpa using hp
        · exact hk5 j (by omega) hj2 b hb
    | none =>
      simp only [ha] at h
      rcases ih (s + 1) idx h with ⟨k, hk1, hk2, hk3, hk4, hk5⟩
      refine ⟨k, by omega, by omega, hk3, hk4, ?_⟩
      intro j hj1 hj2 b hb
      by_cases hjs : j = s
      · subst hjs
        rw [ha] at hb
        cases hb
      · exact hk5 j (by omega) hj2 b hb

lemma scanLoop_none_all_fail (accounts : List Account) (index : Nat)
    (p : Account → Bool) :
    ∀ n s, scanLoop accounts index p (offsetsFrom s n) = none →
      ∀ j, s ≤ j → j < s + n → ∀ a,
        accounts[(index + j) % accounts.length]? = some a → p a = false := by
  intro n
  induction n with
  | zero =>
    intro s h j hj1 hj2 a ha
    exact absurd hj2 (by omega)
  | succ n ih =>
    intro s h j hj1 hj2 a ha
    unfold offsetsFrom scanLoop at h
    cases hb : accounts[(index + s) % accounts.length]? with
    | some b =>
      simp only [hb] at h
      by_cases hp : p b = true
      · rw [if_pos hp] at h
        cases h
      · rw [if_neg hp] at h
        by_cases hjs : j = s
        · subst hjs
          rw [hb] at ha
          cases ha
          simpa using hp
        · exact ih (s + 1) h j (by omega) (by omega) a ha
    | none =>
      simp only [hb] at h
      by_cases hjs : j = s
      · subst hjs
        rw [hb] at ha
        cases ha
      · exact ih (s + 1) h j (by omega) (by omega) a ha

lemma exists_offset (index t n : Nat) (hn : 0 < n) (ht : t < n) :
    ∃ j, 1 ≤ j ∧ j ≤ n ∧ (index + j) % n = t := by
  have hr : index % n < n := Nat.mod_lt _ hn
  have hd : n * (index / n) + index % n = index := Nat.div_add_mod index n
  by_cases h : index % n < t
  · refine ⟨t - index % n, by omega, by omega, ?_⟩
    have h2 : index + (t - index % n) = n * (index / n) + t := by omega
    rw [h2, Nat.mul_add_mod]
    exact Nat.mod_eq_of_lt ht
  · refine ⟨n + t - index % n, by omega, by omega, ?_⟩
    have h2 : index + (n + t - index % n) = n * (index / n) + (n + t) := by omega
    rw [h2, Nat.mul_add_mod, Nat.add_mod_left]
    exact Nat.mod_eq_of_lt ht

lemma scanFrom_of_exists (accounts : List Account) (index : Nat)
    (p : Account → Bool) (a : Account) (ha : a ∈ accounts) (hp : p a = true) :
    scanFrom accounts index p ≠ none := by
  intro hnone
  unfold scanFrom at hnone
  rcases List.mem_iff_getElem?.mp ha with ⟨t, ht⟩
  have htlen : t < accounts.length := (List.getElem?_eq_some.mp ht).1
  have hn : 0 < accounts.length := by omega
  rcases exists_offset index t accounts.length hn htlen with ⟨j, hj1, hj2, hj3⟩
  have hfail := scanLoop_none_all_fail accounts index p accounts.length 1 hnone j hj1
    (by omega) a (by rw [hj3]; exact ht)
  rw [hp] at hfail
  cases hfail

lemma availablePred_eq_usable (now : Int) (modelId : Option String) (a : Account) :
    availablePred now modelId a = isAccountUsable now a modelId := rfl

lemma preferredPred_eq_preferred (now : Int) (modelId : Option String)
    (threshold : ℚ) (a : Account) :
    preferredPred now modelId threshold a =
      isAccountPreferred now a modelId threshold := by
  unfold preferredPred isAccountPreferred isAccountUsable
  cases hi : a.isInvalid <;>
    cases hstr : strTruthy modelId <;>
      cases hl : (rateLimitFor a modelId).isSome <;>
        cases hal : activeLimit now (rateLimitFor a modelId) <;>
          cases hsl : isSoftLimited now a modelId threshold <;>
            simp [hi, hstr, hl, hal, hsl]

/-- C3: when at least one hard-available account exists after the sweeps,
`pickNext` returns the account at the smallest positive step offset from the
clamped cursor in forward wrap-around order — scanning preferred
(non-soft-limited) accounts first when soft limits are enabled and a model is
given, otherwise (or when no preferred account exists) any hard-available
account — never the globally lowest index; in particular, for three accounts
A, B, C with cursor 0 and only A hard-limited for model `m`, it returns B
with new cursor index 1. -/
theorem pickNext_first_forward_match :
    (∀ (now : Int) (threshold : ℚ) (accounts0 : List Account) (currentIndex : Nat)
        (modelId : Option String) (softLimitEnabled : Bool),
      getAvailableAccounts now (sweep now accounts0) modelId ≠ [] →
      ∃ idx,
        (pickNext now threshold accounts0 currentIndex modelId softLimitEnabled).1 =
          ⟨((sweep now accounts0)[idx]?).map (fun a => { a with lastUsed := some now }),
            idx⟩ ∧
        ((softLimitEnabled && strTruthy modelId) = true ∧
            getPreferredAccounts now (sweep now accounts0) modelId threshold ≠ [] ∧
            firstHitFrom (sweep now accounts0)
              (clampIndex (sweep now accounts0) currentIndex)
              (fun a => isAccountPreferred now a modelId threshold) idx ∨
          ((softLimitEnabled && strTruthy modelId) = false ∨
              getPreferredAccounts now (sweep now accounts0) modelId threshold = []) ∧
            firstHitFrom (sweep now accounts0)
              (clampIndex (sweep now accounts0) currentIndex)
              (fun a => isAccountUsable now a modelId) idx)) ∧
    (pickNext 0 (7/10)
        [{ email := "A", modelRateLimits := [("m", ⟨true, some 1000⟩)] },
          { email := "B" }, { email := "C" }] 0 (some "m") true).1 =
      ⟨some { email := "B", lastUsed := some 0 }, 1⟩ := by
  constructor
  · intro now threshold accounts0 currentIndex modelId softLimitEnabled hav
    have hlen :
        ((getAvailableAccounts now (sweep now accounts0) modelId).length == 0) = false := by
      simpa using hav
    unfold pickNext
    simp only []
    rw [hlen]
    rw [if_neg (show ¬((false : Bool) = true) by decide)]
    have husable : ∃ a ∈ sweep now accounts0, isAccountUsable now a modelId = true := by
      rcases List.exists_mem_of_ne_nil _ hav with ⟨x, hx⟩
      rcases List.mem_filter.mp hx with ⟨hx1, hx2⟩
      exact ⟨x, hx1, by rw [← availablePred_eq_usable]; exact hx2⟩
    cases hE : softLimitEnabled && strTruthy modelId with
    | false =>
      simp only [Bool.false_eq_true, if_false]
      cases hscan : scanFrom (sweep now accounts0)
          (clampIndex (sweep now accounts0) currentIndex)
          (fun a => isAccountUsable now a modelId) with
      | some idx =>
        refine ⟨idx, rfl, Or.inr ⟨Or.inl (by trivial), ?_⟩⟩
        unfold scanFrom at hscan
        rcases scanLoop_first _ _ _ _ _ _ hscan with ⟨k, hk1, hk2, hk3, hk4, hk5⟩
        exact ⟨k, hk1, by omega, hk3, hk4, hk5⟩
      | none =>
        rcases husable with ⟨a, ha1, ha2⟩
        exact absurd hscan (scanFrom_of_exists _ _ _ a ha1 ha2)
    | true =>
      simp only [if_true]
      by_cases hP : 0 < (getPreferredAccounts now (sweep now accounts0) modelId threshold).length
      · rw [if_pos hP]
        cases hscan : scanFrom (sweep now accounts0)
            (clampIndex (sweep now accounts0) currentIndex)
            (fun a => isAccountPreferred now a modelId threshold) with
        | some idx =>
          refine ⟨idx, rfl, Or.inl ⟨by trivial, List.length_pos.mp hP, ?_⟩⟩
          unfold scanFrom at hscan
          rcases scanLoop_first _ _ _ _ _ _ hscan with ⟨k, hk1, hk2, hk3, hk4, hk5⟩
          exact ⟨k, hk1, by omega, hk3, hk4, hk5⟩
        | none =>
          rcases List.exists_mem_of_ne_nil _ (List.length_pos.mp hP) with ⟨x, hx⟩
          rcases List.mem_filter.mp hx with ⟨hx1, hx2⟩
          have hx3 : isAccountPreferred now x modelId threshold = true := by
            rw [← preferredPred_eq_preferred]
            exact hx2
          exact absurd hscan (scanFrom_of_exists _ _ _ x hx1 hx3)
      · rw [if_neg hP]
        have hPnil : getPreferredAccounts now (sweep now accounts0) modelId threshold = [] :=
          List.length_eq_zero.mp (by omega)
        cases hscan : scanFrom (sweep now accounts0)
            (clampIndex (sweep now accounts0) currentIndex)
            (fun a => isAccountUsable now a modelId) with
        | some idx =>
          refine ⟨idx, rfl, Or.inr ⟨Or.inr hPnil, ?_⟩⟩
          unfold scanFrom at hscan
          rcases scanLoop_first _ _ _ _ _ _ hscan with ⟨k, hk1, hk2, hk3, hk4, hk5⟩
          exact ⟨k, hk1, by omega, hk3, hk4, hk5⟩
        | none =>
          rcases husable with ⟨a, ha1, ha2⟩
          exact absurd hscan (scanFrom_of_exists _ _ _ a ha1 ha2)
  · decide

/-- Witness for the general conjunct of `pickNext_first_forward_match`:
instantiated at the three-account scenario of the claim. -/
theorem pickNext_first_forward_match_witness :
    ∃ idx,
      (pickNext 0 (7/10)
          [{ email := "A", modelRateLimits := [("m", ⟨true, some 1000⟩)] },
            { email := "B" }, { email := "C" }] 0 (some "m") true).1 =
        ⟨((sweep 0
            [{ email := "A", modelRateLimits := [("m", ⟨true, some 1000⟩)] },
              { email := "B" }, { email := "C" }])[idx]?).map
            (fun a => { a with lastUsed := some 0 }), idx⟩ ∧
      ((true && strTruthy (some "m")) = true ∧
          getPreferredAccounts 0 (sweep 0
            [{ email := "A", modelRateLimits := [("m", ⟨true, some 1000⟩)] },
              { email := "B" }, { email := "C" }]) (some "m") (7/10) ≠ [] ∧
          firstHitFrom (sweep 0
            [{ email := "A", modelRateLimits := [("m", ⟨true, some 1000⟩)] },
              { email := "B" }, { email := "C" }])
            (clampIndex (sweep 0
              [{ email := "A", modelRateLimits := [("m", ⟨true, some 1000⟩)] },
                { email := "B" }, { email := "C" }]) 0)
            (fun a => isAccountPreferred 0 a (some "m") (7/10)) idx ∨
        ((true && strTruthy (some "m")) = false ∨
            getPreferredAccounts 0 (sweep 0
              [{ email := "A", modelRateLimits := [("m", ⟨true, some 1000⟩)] },
                { email := "B" }, { email := "C" }]) (some "m") (7/10) = []) ∧
          firstHitFrom (sweep 0
            [{ email := "A", modelRateLimits := [("m", ⟨true, some 1000⟩)] },
              { email := "B" }, { email := "C" }])
            (clampIndex (sweep 0
              [{ email := "A", modelRateLimits := [("m", ⟨true, some 1000⟩)] },
                { email := "B" }, { email := "C" }]) 0)
            (fun a => isAccountUsable 0 a (some "m")) idx) :=
  pickNext_first_forward_match.1 0 (7/10)
    [{ email := "A", modelRateLimits := [("m", ⟨true, some 1000⟩)] },
      { email := "B" }, { email := "C" }] 0 (some "m") true (by decide)

/-! ### Claim C4: pickStickyAccount waits on a short rate limit -/

lemma sweep_preserves_active_entry (now rt : Int) (a : Account) (m : String)
    (hlim : lookupEntry a.modelRateLimits m = some ⟨true, some rt⟩)
    (hgt : now < rt) :
    lookupEntry (clearExpiredSoftLimitsAcc now
        (clearExpiredLimitsAcc now a)).modelRateLimits m = some ⟨true, some rt⟩ := by
  show lookupEntry (a.modelRateLimits.map (clearExpiredLimitEntry now)) m = _
  rw [lookupEntry_map_clear, hlim]
  have hle : jsLe (some rt) now = false := by
    simp [jsLe]
    omega
  simp [hle]

lemma availablePred_false_of_unusable (now : Int) (m : String) (a : Account)
    (hm : m ≠ "") (h : a.isInvalid = true ∨ ∃ rt2,
      lookupEntry a.modelRateLimits m = some ⟨true, some rt2⟩ ∧ now < rt2) :
    availablePred now (some m)
      (clearExpiredSoftLimitsAcc now (clearExpiredLimitsAcc now a)) = false := by
  rcases h with hi | ⟨rt2, hl, hgt⟩
  · unfold availablePred
    have : (clearExpiredSoftLimitsAcc now (clearExpiredLimitsAcc now a)).isInvalid = true := hi
    rw [this]
    rfl
  · have hl2 := sweep_preserves_active_entry now rt2 a m hl hgt
    unfold availablePred
    cases hi : (clearExpiredSoftLimitsAcc now (clearExpiredLimitsAcc now a)).isInvalid with
    | true => rfl
    | false =>
      have hrl : rateLimitFor
          (clearExpiredSoftLimitsAcc now (clearExpiredLimitsAcc now a)) (some m) =
            some ⟨true, some rt2⟩ := hl2
      rw [hrl]
      have hgt2 : jsGt (some rt2) now = true := by
        simp [jsGt]
        omega
      simp [activeLimit, hgt2, strTruthy, hm]

lemma getAvailable_sweep_nil (now : Int) (m : String) (accounts : List Account)
    (hm : m ≠ "") (hall : ∀ a ∈ accounts, a.isInvalid = true ∨ ∃ rt2,
      lookupEntry a.modelRateLimits m = some ⟨true, some rt2⟩ ∧ now < rt2) :
    getAvailableAccounts now (sweep now accounts) (some m) = [] := by
  unfold getAvailableAccounts sweep clearExpiredLimits clearExpiredSoftLimits
  rw [List.map_map, List.filter_eq_nil_iff]
  intro x hx
  rcases List.mem_map.mp hx with ⟨a, ha, hxa⟩
  intro hcontra
  have hfalse := availablePred_false_of_unusable now m a hm (hall a ha)
  rw [show x = clearExpiredSoftLimitsAcc now (clearExpiredLimitsAcc now a) from hxa.symm]
    at hcontra
  rw [hfalse] at hcontra
  cases hcontra

lemma getCurrentStickyAccount_unusable (now : Int) (threshold : ℚ)
    (accounts : List Account) (currentIndex : Nat) (modelId : Option String)
    (hne : accounts ≠ [])
    (hun : ∀ a, (sweep now accounts)[clampIndex (sweep now accounts) currentIndex]? =
      some a → isAccountUsable now a modelId = false) :
    getCurrentStickyAccount now threshold accounts currentIndex modelId =
      (⟨none, clampIndex (sweep now accounts) currentIndex, false⟩,
        sweep now accounts) := by
  unfold getCurrentStickyAccount
  simp only []
  have hlen : ((sweep now accounts).length == 0) = false := by
    rw [sweep_length]
    simpa using hne
  rw [hlen]
  rw [if_neg (show ¬((false : Bool) = true) by decide)]
  cases hc : (sweep now accounts)[clampIndex (sweep now accounts) currentIndex]? with
  | none => rfl
  | some a =>
    have hu := hun a hc
    simp [hu]

lemma shouldWait_of_limited (maxWait now rt w : Int) (accounts2 : List Account)
    (currentIndex : Nat) (m : String) (a : Account)
    (hm : m ≠ "") (hne : accounts2.length ≠ 0)
    (hcur : accounts2[clampIndex accounts2 currentIndex]? = some a)
    (hinv : a.isInvalid = false)
    (hrl : rateLimitFor a (some m) = some ⟨true, some rt⟩)
    (hrt0 : rt ≠ 0) (hw : rt - now = w) (hw0 : 0 < w) (hwmax : w ≤ maxWait) :
    shouldWaitForCurrentAccount maxWait now accounts2 currentIndex (some m) =
      ⟨true, w, some a⟩ := by
  unfold shouldWaitForCurrentAccount
  simp only []
  have hlen : (accounts2.length == 0) = false := by simpa using hne
  rw [hlen]
  rw [if_neg (show ¬((false : Bool) = true) by decide)]
  cases hc : accounts2[clampIndex accounts2 currentIndex]? with
  | none =>
    rw [hc] at hcur
    cases hcur
  | some b =>
    rw [hc] at hcur
    cases hcur
    have hstr : strTruthy (some m) = true := by simp [strTruthy, hm]
    have hnt : numTruthy (some rt) = true := by
      simp [numTruthy]
      omega
    have hd1 : decide (w > 0) = true := by simpa using hw0
    have hd2 : decide (w ≤ maxWait) = true := by simpa using hwmax
    simp only [hinv, Bool.false_eq_true, if_false, hrl, hstr, Option.isSome_some,
      Bool.and_self, if_true, Bool.true_and, Bool.and_true, hnt, hw, hd1, hd2]
    simp [Option.getD_some, hw, hd1, hd2]

/-- C4: if the account at the (clamped) cursor is hard-limited for the given
model with remaining wait `w` satisfying `0 < w <= MAX_WAIT_BEFORE_ERROR_MS`,
and every account (the cursor's and all others) is invalid or hard-limited
with an unexpired reset — so no hard-available account exists — then
`pickStickyAccount` returns no account, `waitMs = w`, and the unchanged
cursor index. -/
theorem pickStickyAccount_short_wait (now w rt maxWait : Int) (threshold : ℚ)
    (accounts : List Account) (currentIndex : Nat) (m : String)
    (softLimitEnabled : Bool) (cur : Account)
    (hm : m ≠ "") (hnow : 0 ≤ now) (hne : accounts ≠ [])
    (hcur : accounts[clampIndex accounts currentIndex]? = some cur)
    (hinv : cur.isInvalid = false)
    (hlim : lookupEntry cur.modelRateLimits m = some ⟨true, some rt⟩)
    (hw : rt - now = w) (hw0 : 0 < w) (hwmax : w ≤ maxWait)
    (hall : ∀ a ∈ accounts, a.isInvalid = true ∨ ∃ rt2,
      lookupEntry a.modelRateLimits m = some ⟨true, some rt2⟩ ∧ now < rt2) :
    (pickStickyAccount now threshold maxWait accounts currentIndex (some m)
      softLimitEnabled).1 = ⟨none, w, currentIndex⟩ := by
  have hgt : now < rt := by omega
  have hrt0 : rt ≠ 0 := by omega
  have hclamp : clampIndex (sweep now accounts) currentIndex =
      clampIndex accounts currentIndex := by
    unfold clampIndex
    rw [sweep_length]
  have hcurS : (sweep now accounts)[clampIndex (sweep now accounts) currentIndex]? =
      some (clearExpiredSoftLimitsAcc now (clearExpiredLimitsAcc now cur)) := by
    rw [hclamp, sweep_getElem?, hcur]
    rfl
  have hentry : lookupEntry (clearExpiredSoftLimitsAcc now
      (clearExpiredLimitsAcc now cur)).modelRateLimits m = some ⟨true, some rt⟩ :=
    sweep_preserves_active_entry now rt cur m hlim hgt
  have hinvS : (clearExpiredSoftLimitsAcc now
      (clearExpiredLimitsAcc now cur)).isInvalid = false := hinv
  have hstr : strTruthy (some m) = true := by simp [strTruthy, hm]
  have husableF : isAccountUsable now
      (clearExpiredSoftLimitsAcc now (clearExpiredLimitsAcc now cur)) (some m) = false := by
    unfold isAccountUsable
    rw [hinvS]
    rw [if_neg (show ¬((false : Bool) = true) by decide)]
    have hrl : rateLimitFor
        (clearExpiredSoftLimitsAcc now (clearExpiredLimitsAcc now cur)) (some m) =
          some ⟨true, some rt⟩ := hentry
    rw [hrl, hstr]
    have hgt2 : jsGt (some rt) now = true := by
      simp [jsGt]
      omega
    simp [activeLimit, hgt2]
  have hsticky := getCurrentStickyAccount_unusable now threshold accounts currentIndex
    (some m) hne (by
      intro a ha
      rw [hcurS] at ha
      cases ha
      exact husableF)
  have hnil := getAvailable_sweep_nil now m accounts hm hall
  have hlenS : (sweep now accounts).length ≠ 0 := by
    rw [sweep_length]
    simpa using hne
  have hwait := shouldWait_of_limited maxWait now rt w (sweep now accounts) currentIndex
    m (clearExpiredSoftLimitsAcc now (clearExpiredLimitsAcc now cur)) hm hlenS hcurS
    hinvS hentry hrt0 hw hw0 hwmax
  unfold pickStickyAccount
  simp only []
  rw [hsticky]
  simp only []
  rw [hnil]
  simp only [List.length_nil]
  rw [if_neg (show ¬((0 : Nat) > 0) by omega)]
  unfold pickStickyTail
  simp only []
  rw [hwait]
  rfl

/-- Witness for `pickStickyAccount_short_wait`: cursor at A which is
hard-limited with `resetTime = now + 5000`, B and C invalid. -/
theorem pickStickyAccount_short_wait_witness :
    (pickStickyAccount 0 (7/10) 120000
      [{ email := "A", modelRateLimits := [("m", ⟨true, some 5000⟩)] },
        { email := "B", isInvalid := true },
        { email := "C", isInvalid := true }] 0 (some "m") true).1 =
      ⟨none, 5000, 0⟩ :=
  pickStickyAccount_short_wait 0 5000 5000 120000 (7/10)
    [{ email := "A", modelRateLimits := [("m", ⟨true, some 5000⟩)] },
      { email := "B", isInvalid := true },
      { email := "C", isInvalid := true }] 0 "m" true
    { email := "A", modelRateLimits := [("m", ⟨true, some 5000⟩)] }
    (by decide) (by decide) (by simp) (by decide) (by decide) (by decide)
    (by decide) (by decide) (by decide)
    (by
      intro a ha
      fin_cases ha
      · exact Or.inr ⟨5000, by decide, by decide⟩
      · exact Or.inl (by decide)
      · exact Or.inl (by decide))

/-! ### Claim C9: getStatus exposes no credential material -/

/-- JS `a.invalidReason || null`: the empty string is falsy and collapses to
`null`. -/
def jsOrNullStr : Option String → Option String
  | none => none
  | some s => if s == "" then none else some s

/-- Per-account projection built by `AccountManager.getStatus`
(`index.js` lines 344-352): only email, source, the two limit maps, the
invalid flag/reason and last-used are copied. -/
structure AccountStatusEntry where
  email : String
  source : Option String
  modelRateLimits : List (String × RateLimitState)
  modelSoftLimits : List (String × SoftLimitState)
  isInvalid : Bool
  invalidReason : Option String
  lastUsed : Option Int
deriving Repr, DecidableEq

/-- The projection `a => ({email, source, modelRateLimits, modelSoftLimits,
isInvalid, invalidReason, lastUsed})` of `getStatus`. -/
def statusEntryOf (a : Account) : AccountStatusEntry :=
  { email := a.email
    source := a.source
    modelRateLimits := a.modelRateLimits
    modelSoftLimits := a.modelSoftLimits
    isInvalid := a.isInvalid
    invalidReason := jsOrNullStr a.invalidReason
    lastUsed := a.lastUsed }

/-- The `rateLimited` count predicate of `getStatus`: some model entry is
`isRateLimited` with `resetTime > now`. -/
def hasActiveRateLimit (now : Int) (a : Account) : Bool :=
  a.modelRateLimits.any (fun e => e.2.isRateLimited && jsGt e.2.resetTime now)

/-- The `softLimited` count predicate of `getStatus`: some model entry is
`isSoftLimited` with `resetTime` falsy or still in the future. -/
def hasActiveSoftLimit (now : Int) (a : Account) : Bool :=
  a.modelSoftLimits.any
    (fun e => e.2.isSoftLimited && (!(numTruthy e.2.resetTime) || jsGt e.2.resetTime now))

/-- Status snapshot returned by `AccountManager.getStatus`
(`index.js` lines 315-354). -/
structure PoolStatus where
  total : Nat
  available : Nat
  rateLimited : Nat
  softLimited : Nat
  invalid : Nat
  softLimitEnabled : Bool
  softLimitThreshold : ℚ
  summary : String
  accounts : List AccountStatusEntry
deriving Repr, DecidableEq

/-- `AccountManager.getStatus()` (`index.js` lines 315-354) over the manager
state (its account list, soft-limit flag and threshold).  The `available`
count calls `getAvailableAccounts` with the default `null` model id. -/
def getStatus (now : Int) (accounts : List Account) (softLimitEnabled : Bool)
    (softLimitThreshold : ℚ) : PoolStatus :=
  let available := getAvailableAccounts now accounts none
  let invalid := getInvalidAccounts accounts
  let rateLimited := accounts.filter (hasActiveRateLimit now)
  let softLimited := accounts.filter (hasActiveSoftLimit now)
  { total := accounts.length
    available := available.length
    rateLimited := rateLimited.length
    softLimited := softLimited.length
    invalid := invalid.length
    softLimitEnabled := softLimitEnabled
    softLimitThreshold := softLimitThreshold
    summary := toString accounts.length ++ " total, " ++
      toString available.length ++ " available, " ++
      toString rateLimited.length ++ " rate-limited, " ++
      toString softLimited.length ++ " soft-limited, " ++
      toString invalid.length ++ " invalid"
    accounts := accounts.map statusEntryOf }

/-- Erase the raw credential material of an account, keeping every other
field. -/
def scrubCredentials (a : Account) : Account :=
  { a with credentials := "" }

lemma getStatus_scrub (now : Int) (accounts : List Account) (enabled : Bool)
    (threshold : ℚ) :
    getStatus now (accounts.map scrubCredentials) enabled threshold =
      getStatus now accounts enabled threshold := by
  unfold getStatus getAvailableAccounts getInvalidAccounts
  have h1 : ∀ a : Account, availablePred now none (scrubCredentials a) =
      availablePred now none a := fun a => rfl
  have h2 : ∀ a : Account, (scrubCredentials a).isInvalid = a.isInvalid :=
    fun a => rfl
  have h3 : ∀ a : Account, hasActiveRateLimit now (scrubCredentials a) =
      hasActiveRateLimit now a := fun a => rfl
  have h4 : ∀ a : Account, hasActiveSoftLimit now (scrubCredentials a) =
      hasActiveSoftLimit now a := fun a => rfl
  have h5 : ∀ a : Account, statusEntryOf (scrubCredentials a) = statusEntryOf a :=
    fun a => rfl
  have hc1 : (availablePred now none ∘ scrubCredentials) = availablePred now none :=
    funext h1
  have hc2 : ((fun (acc : Account) => acc.isInvalid) ∘ scrubCredentials) =
      (fun (acc : Account) => acc.isInvalid) := funext h2
  have hc3 : (hasActiveRateLimit now ∘ scrubCredentials) = hasActiveRateLimit now :=
    funext h3
  have hc4 : (hasActiveSoftLimit now ∘ scrubCredentials) = hasActiveSoftLimit now :=
    funext h4
  have hc5 : (statusEntryOf ∘ scrubCredentials) = statusEntryOf := funext h5
  simp [List.filter_map, List.map_map, hc1, hc2, hc3, hc4, hc5]

/-- C9: the `getStatus` snapshot never depends on the raw credential material
stored on the account objects — each per-account record carries only email,
source, the two limit maps, the invalid flag/reason and last-used (the
`AccountStatusEntry` projection), so two manager states that differ only in
the accounts' credential fields produce identical `getStatus` outputs. -/
theorem getStatus_credential_independent (now : Int) (as1 as2 : List Account)
    (enabled : Bool) (threshold : ℚ)
    (h : as1.map scrubCredentials = as2.map scrubCredentials) :
    getStatus now as1 enabled threshold = getStatus now as2 enabled threshold := by
  rw [← getStatus_scrub now as1, ← getStatus_scrub now as2, h]

/-- Witness for `getStatus_credential_independent`: two one-account pools
whose single accounts differ only in their credential strings. -/
theorem getStatus_credential_independent_witness :
    getStatus 0 [{ email := "a", credentials := "secret-1" }] true (7/10) =
      getStatus 0 [{ email := "a", credentials := "secret-2" }] true (7/10) :=
  getStatus_credential_independent 0
    [{ email := "a", credentials := "secret-1" }]
    [{ email := "a", credentials := "secret-2" }] true (7/10) (by decide)
